import Mathlib

/-!
Verification development for the Fennai media-generation backend.

The definitions below are shallow embeddings of the Python source:
  - `functions/proxy/firebase/credits.py` (credit ledger; the copy in
    `functions/inference/firebase/credits.py` is line-for-line the same
    logic with the same constants),
  - `functions/proxy/routes/voice_clone.py` (dialogue chunker),
  - `functions/inference/routes/clone_audio.py` (chunk completion and
    merge trigger),
  - `functions/inference/middleware.py` and
    `functions/inference/routes/merge_video.py` (retry handling),
  - `functions/inference/utils/audio_processor.py` (time stretch),
  - `functions/inference/utils/speaker_clustering.py` (cluster id
    assignment).

Machine integers in the Python source are arbitrary-precision, so they are
modelled by `Int`/`Nat`; durations and multipliers are modelled by `Rat`
(the float values 1.5, 1.2, 0.1 used by the source are exactly
representable).  Firestore transactions execute atomically, so each ledger
operation is one function from state to (result, state); the non-atomic
read-then-write code in `clone_audio.py` is instead modelled with its read
snapshot made explicit.
-/

/-! ## Credit cost calculation

Embeds `calculate_cost_from_duration` and `calculate_dubbing_cost` from
`functions/proxy/firebase/credits.py` (lines 26-45).  The copies in
`functions/inference/firebase/credits.py` (lines 24-43) are identical and
read the same constant values from `config`.
-/

/-- Python `int()` applied to a rational: truncation toward zero. -/
def pyTrunc (q : ℚ) : ℤ :=
  if q < 0 then ⌈q⌉ else ⌊q⌋

/-- Constant `SECONDS_PER_CREDIT = 10` from `functions/proxy/utils/__init__.py`. -/
def SECONDS_PER_CREDIT : ℚ := 10

/-- Constant `MULTI_CHARACTER_MULTIPLIER = 1.5`. -/
def MULTI_CHARACTER_MULTIPLIER : ℚ := 3 / 2

/-- Constant `DUBBING_TRANSLATION_MULTIPLIER = 1.5`. -/
def DUBBING_TRANSLATION_MULTIPLIER : ℚ := 3 / 2

/-- Constant `DUBBING_VIDEO_MULTIPLIER = 1.2`. -/
def DUBBING_VIDEO_MULTIPLIER : ℚ := 6 / 5

/-- Embeds `calculate_cost_from_duration(duration_seconds, is_multi_character)`:
`base_cost = max(1, int(duration_seconds / SECONDS_PER_CREDIT))`, then
`max(1, int(base_cost * multiplier))`. -/
def calculate_cost_from_duration (duration_seconds : ℚ)
    (is_multi_character : Bool) : ℤ :=
  let base_cost : ℤ := max 1 (pyTrunc (duration_seconds / SECONDS_PER_CREDIT))
  let multiplier : ℚ := if is_multi_character then MULTI_CHARACTER_MULTIPLIER else 1
  max 1 (pyTrunc ((base_cost : ℚ) * multiplier))

/-- Embeds `calculate_dubbing_cost(duration_seconds, has_translation, is_video)`. -/
def calculate_dubbing_cost (duration_seconds : ℚ)
    (has_translation : Bool) (is_video : Bool) : ℤ :=
  let base_credits : ℤ := max 1 (pyTrunc (duration_seconds / SECONDS_PER_CREDIT))
  let translation_mult : ℚ :=
    if has_translation then DUBBING_TRANSLATION_MULTIPLIER else 1
  let video_mult : ℚ := if is_video then DUBBING_VIDEO_MULTIPLIER else 1
  max 1 (pyTrunc ((base_credits : ℚ) * translation_mult * video_mult))

/-! ## Credit ledger

Embeds `reserve_credits`, `confirm_credit_deduction` and `release_credits`
from `functions/proxy/firebase/credits.py` (lines 48-339).  Each Python
function is one Firestore transaction, so it is modelled as one atomic
state transformer.  The user document is modelled with the fields the
ledger reads and writes (`credits`, `pendingCredits`, `isPro`,
`totalVoicesGenerated`); `updatedAt`/timestamp fields carry no logical
content and are omitted.  A raised `ValueError` aborts the transaction and
is reported as `(False, message)`, i.e. failure with the state unchanged.
-/

/-- User document fields read and written by the ledger. -/
structure UserDoc where
  credits : ℤ
  pendingCredits : ℤ
  isPro : Bool
  totalVoicesGenerated : ℤ
deriving DecidableEq, Repr

/-- Job document fields read and written by the ledger.  A freshly created
job has no `creditsReleased` key, which `dict.get` reads as falsy, so the
field is modelled as `false` on creation. -/
structure JobDoc where
  cost : ℤ
  status : String
  creditsReserved : Bool
  creditsConfirmed : Bool
  creditsReleased : Bool
deriving DecidableEq, Repr

/-- Ledger state: the user document plus the job collection
(association list keyed by job id). -/
structure LedgerState where
  user : UserDoc
  jobs : List (String × JobDoc)
deriving DecidableEq, Repr

/-- Read the job document with the given id (first binding wins, matching a
keyed document store). -/
def lookupJob : List (String × JobDoc) → String → Option JobDoc
  | [], _ => none
  | (k, v) :: rest, jid => if k = jid then some v else lookupJob rest jid

/-- Update the job document with the given id in place. -/
def updateJob (f : JobDoc → JobDoc) :
    List (String × JobDoc) → String → List (String × JobDoc)
  | [], _ => []
  | (k, v) :: rest, jid =>
    if k = jid then (k, f v) :: updateJob f rest jid
    else (k, v) :: updateJob f rest jid

/-- Embeds `reserve_credits(uid, job_id, cost, job_data)`: fail if the job
already exists; fail if the user is not pro and
`credits - pendingCredits < cost`; otherwise increment `pendingCredits` by
`cost` (non-pro only) and create the job document with
`creditsReserved=True, creditsConfirmed=False` in the same transaction. -/
def reserve_credits (s : LedgerState) (job_id : String) (cost : ℤ) :
    Bool × LedgerState :=
  match lookupJob s.jobs job_id with
  | some _ => (false, s)
  | none =>
    let available_credits := s.user.credits - s.user.pendingCredits
    if ¬s.user.isPro ∧ available_credits < cost then (false, s)
    else
      let user' :=
        if s.user.isPro then s.user
        else { s.user with pendingCredits := s.user.pendingCredits + cost }
      let job : JobDoc :=
        { cost := cost, status := "queued", creditsReserved := true
          creditsConfirmed := false, creditsReleased := false }
      (true, { user := user', jobs := (job_id, job) :: s.jobs })

/-- Embeds `confirm_credit_deduction(uid, job_id, cost)`: fail if the job is
missing; succeed without changes if `creditsConfirmed` is already set; fail
if `creditsReserved` is not set; otherwise increment
`totalVoicesGenerated`, decrement `credits` and `pendingCredits` by `cost`
(non-pro only) and set `creditsConfirmed=True`. -/
def confirm_credit_deduction (s : LedgerState) (job_id : String) (cost : ℤ) :
    Bool × LedgerState :=
  match lookupJob s.jobs job_id with
  | none => (false, s)
  | some job =>
    if job.creditsConfirmed then (true, s)
    else if ¬job.creditsReserved then (false, s)
    else
      let user' :=
        { s.user with
          totalVoicesGenerated := s.user.totalVoicesGenerated + 1 }
      let user' :=
        if s.user.isPro then user'
        else
          { user' with
            credits := user'.credits - cost
            pendingCredits := user'.pendingCredits - cost }
      (true,
        { user := user'
          jobs := updateJob (fun j => { j with creditsConfirmed := true })
            s.jobs job_id })

/-- Embeds `release_credits(uid, job_id, cost)`: succeed without changes if
the job is missing, already released, or never reserved; fail without
changes if `creditsConfirmed` is set; otherwise decrement `pendingCredits`
by `cost` (non-pro only) and set `creditsReleased=True`. -/
def release_credits (s : LedgerState) (job_id : String) (cost : ℤ) :
    Bool × LedgerState :=
  match lookupJob s.jobs job_id with
  | none => (true, s)
  | some job =>
    if job.creditsConfirmed then (false, s)
    else if job.creditsReleased then (true, s)
    else if ¬job.creditsReserved then (true, s)
    else
      let user' :=
        if s.user.isPro then s.user
        else { s.user with pendingCredits := s.user.pendingCredits - cost }
      (true,
        { user := user'
          jobs := updateJob (fun j => { j with creditsReleased := true })
            s.jobs job_id })

/-- A ledger operation together with its arguments. -/
inductive LedgerOp where
  | reserve (job_id : String) (cost : ℤ)
  | confirm (job_id : String) (cost : ℤ)
  | release (job_id : String) (cost : ℤ)
deriving DecidableEq, Repr

/-- The cost argument carried by a ledger operation. -/
def LedgerOp.cost : LedgerOp → ℤ
  | .reserve _ c => c
  | .confirm _ c => c
  | .release _ c => c

/-- Apply a ledger operation to the state, discarding the returned flag. -/
def applyLedgerOp (s : LedgerState) : LedgerOp → LedgerState
  | .reserve jid c => (reserve_credits s jid c).2
  | .confirm jid c => (confirm_credit_deduction s jid c).2
  | .release jid c => (release_credits s jid c).2

/-- Run a sequence of ledger operations from the left. -/
def runLedger (s : LedgerState) (ops : List LedgerOp) : LedgerState :=
  ops.foldl applyLedgerOp s

/-! ## Ledger helper lemmas -/

/-- Looking up the updated key returns the updated document. -/
lemma lookupJob_updateJob (f : JobDoc → JobDoc)
    (jobs : List (String × JobDoc)) (jid : String) :
    lookupJob (updateJob f jobs jid) jid = (lookupJob jobs jid).map f := by
  induction jobs with
  | nil => rfl
  | cons kv rest ih =>
    obtain ⟨k, v⟩ := kv
    by_cases h : k = jid <;> simp [updateJob, lookupJob, h, ih]

/-- No ledger operation changes the `isPro` flag. -/
lemma applyLedgerOp_isPro (s : LedgerState) (op : LedgerOp) :
    (applyLedgerOp s op).user.isPro = s.user.isPro := by
  cases op with
  | reserve jid c =>
    rcases hj : lookupJob s.jobs jid with _ | j
    · simp only [applyLedgerOp, reserve_credits, hj]
      split_ifs <;> rfl
    · simp only [applyLedgerOp, reserve_credits, hj]
  | confirm jid c =>
    rcases hj : lookupJob s.jobs jid with _ | j
    · simp only [applyLedgerOp, confirm_credit_deduction, hj]
    · simp only [applyLedgerOp, confirm_credit_deduction, hj]
      split_ifs <;> rfl
  | release jid c =>
    rcases hj : lookupJob s.jobs jid with _ | j
    · simp only [applyLedgerOp, release_credits, hj]
    · simp only [applyLedgerOp, release_credits, hj]
      split_ifs <;> rfl

/-- A single ledger operation of non-negative cost preserves the balance
invariant of a non-privileged user. -/
lemma applyLedgerOp_avail (s : LedgerState) (op : LedgerOp)
    (hpro : s.user.isPro = false) (hc : 0 ≤ op.cost)
    (h : 0 ≤ s.user.credits - s.user.pendingCredits) :
    0 ≤ (applyLedgerOp s op).user.credits -
      (applyLedgerOp s op).user.pendingCredits := by
  cases op with
  | reserve jid c =>
    rcases hj : lookupJob s.jobs jid with _ | j
    · simp only [applyLedgerOp, reserve_credits, hj, hpro, Bool.false_eq_true,
        not_false_eq_true, true_and, if_false]
      split_ifs with h1
      · exact h
      · dsimp only
        omega
    · simp only [applyLedgerOp, reserve_credits, hj]
      exact h
  | confirm jid c =>
    simp only [LedgerOp.cost] at hc
    rcases hj : lookupJob s.jobs jid with _ | j
    · simp only [applyLedgerOp, confirm_credit_deduction, hj]
      exact h
    · simp only [applyLedgerOp, confirm_credit_deduction, hj, hpro]
      split_ifs <;> first | exact h | (dsimp only; omega)
  | release jid c =>
    simp only [LedgerOp.cost] at hc
    rcases hj : lookupJob s.jobs jid with _ | j
    · simp only [applyLedgerOp, release_credits, hj]
      exact h
    · simp only [applyLedgerOp, release_credits, hj, hpro]
      split_ifs <;> first | exact h | (dsimp only; omega)

/-- Running a sequence of non-negative-cost ledger operations from a
non-privileged state with a non-negative balance keeps the balance
non-negative. -/
lemma runLedger_avail (ops : List LedgerOp) :
    ∀ s : LedgerState, s.user.isPro = false → (∀ op ∈ ops, 0 ≤ op.cost) →
      0 ≤ s.user.credits - s.user.pendingCredits →
      0 ≤ (runLedger s ops).user.credits -
        (runLedger s ops).user.pendingCredits := by
  induction ops with
  | nil => intro s _ _ h; simpa [runLedger] using h
  | cons op rest ih =>
    intro s hpro hcost h
    simp only [runLedger, List.foldl_cons]
    have h1 := applyLedgerOp_avail s op hpro (hcost op (by simp)) h
    have h2 : (applyLedgerOp s op).user.isPro = false := by
      rw [applyLedgerOp_isPro]; exact hpro
    exact ih (applyLedgerOp s op) h2 (fun o ho => hcost o (by simp [ho])) h1

/-! ## Claim theorems for the credit ledger -/

/-- C10: for every duration input (including zero and negative values) and
every flag combination, `calculate_cost_from_duration` and
`calculate_dubbing_cost` return a cost of at least one credit, so no
duration-derived reservation estimate or actual cost is ever free. -/
theorem cost_calculations_at_least_one (d : ℚ) (b t v : Bool) :
    1 ≤ calculate_cost_from_duration d b ∧ 1 ≤ calculate_dubbing_cost d t v :=
  ⟨le_max_left _ _, le_max_left _ _⟩

/-- C2 (counterexample): starting from a non-privileged user with
`credits = 2000` and `pendingCredits = 0`, reserving 10 credits for job
`J1` and confirming with actual cost 7 both succeed and leave
`credits = 1993`, but `pendingCredits` is `3`, not `0` as the claim
states: `confirm_credit_deduction` decrements `pendingCredits` by the
confirmed cost (7), not by the reserved cost (10). -/
theorem reserve_confirm_scenario_counterexample :
    (reserve_credits ⟨⟨2000, 0, false, 0⟩, []⟩ "J1" 10).1 = true ∧
    (confirm_credit_deduction
      (reserve_credits ⟨⟨2000, 0, false, 0⟩, []⟩ "J1" 10).2 "J1" 7).1 = true ∧
    (confirm_credit_deduction
      (reserve_credits ⟨⟨2000, 0, false, 0⟩, []⟩ "J1" 10).2
        "J1" 7).2.user.credits = 1993 ∧
    ¬(confirm_credit_deduction
      (reserve_credits ⟨⟨2000, 0, false, 0⟩, []⟩ "J1" 10).2
        "J1" 7).2.user.pendingCredits = 0 := by
  decide

/-- C2 (amended): starting from a non-privileged user with `credits = 2000`
and `pendingCredits = 0`, reserving 10 credits for job `J1` and confirming
with actual cost 7 both succeed and leave the user with `credits = 1993`
and `pendingCredits = 3` (the 10-credit hold is reduced only by the
confirmed cost 7). -/
theorem reserve_confirm_scenario_amended :
    (reserve_credits ⟨⟨2000, 0, false, 0⟩, []⟩ "J1" 10).1 = true ∧
    (confirm_credit_deduction
      (reserve_credits ⟨⟨2000, 0, false, 0⟩, []⟩ "J1" 10).2 "J1" 7).1 = true ∧
    (confirm_credit_deduction
      (reserve_credits ⟨⟨2000, 0, false, 0⟩, []⟩ "J1" 10).2
        "J1" 7).2.user.credits = 1993 ∧
    (confirm_credit_deduction
      (reserve_credits ⟨⟨2000, 0, false, 0⟩, []⟩ "J1" 10).2
        "J1" 7).2.user.pendingCredits = 3 := by
  decide

/-- C3: for every finite sequence of reserve/confirm/release operations
with non-negative costs applied to a non-privileged user whose initial
state satisfies `credits - pendingCredits >= 0`, the inequality
`credits - pendingCredits >= 0` holds after every prefix of the sequence,
i.e. after every operation. -/
theorem ledger_balance_invariant (s : LedgerState) (ops : List LedgerOp)
    (hpro : s.user.isPro = false)
    (hcost : ∀ op ∈ ops, 0 ≤ op.cost)
    (hinit : 0 ≤ s.user.credits - s.user.pendingCredits) (k : ℕ) :
    0 ≤ (runLedger s (ops.take k)).user.credits -
      (runLedger s (ops.take k)).user.pendingCredits :=
  runLedger_avail (ops.take k) s hpro
    (fun op ho => hcost op (List.take_subset k ops ho)) hinit

/-- C3 (witness): the invariant evaluated on the concrete scenario of the
spec (reserve 10 for `J1`, confirm 7, release 5 for an unrelated id) after
its second operation. -/
theorem ledger_balance_invariant_witness :
    0 ≤ (runLedger ⟨⟨2000, 0, false, 0⟩, []⟩
        ([LedgerOp.reserve "J1" 10, LedgerOp.confirm "J1" 7,
          LedgerOp.release "J2" 5].take 2)).user.credits -
      (runLedger ⟨⟨2000, 0, false, 0⟩, []⟩
        ([LedgerOp.reserve "J1" 10, LedgerOp.confirm "J1" 7,
          LedgerOp.release "J2" 5].take 2)).user.pendingCredits :=
  ledger_balance_invariant ⟨⟨2000, 0, false, 0⟩, []⟩
    [LedgerOp.reserve "J1" 10, LedgerOp.confirm "J1" 7,
      LedgerOp.release "J2" 5] (by decide) (by decide) (by decide) 2

/-- C4: `release_credits` on a job whose `creditsConfirmed` flag is set
returns failure and leaves the state (user and job documents) unchanged;
on a job whose `creditsReleased` flag is already set it returns success
and leaves the state unchanged; and for any job that is not confirmed, a
second release after a first one returns success and changes nothing, so
calling release twice is a no-op the second time. -/
theorem release_refuses_after_confirm_and_is_idempotent (s : LedgerState)
    (jid : String) (c : ℤ) (j : JobDoc)
    (hj : lookupJob s.jobs jid = some j) :
    (j.creditsConfirmed = true → release_credits s jid c = (false, s)) ∧
    (j.creditsConfirmed = false → j.creditsReleased = true →
      release_credits s jid c = (true, s)) ∧
    (j.creditsConfirmed = false →
      release_credits (release_credits s jid c).2 jid c =
        (true, (release_credits s jid c).2)) := by
  refine ⟨fun hc => ?_, fun hc hr => ?_, fun hc => ?_⟩
  · simp [release_credits, hj, hc]
  · simp [release_credits, hj, hc, hr]
  · by_cases hr : j.creditsReleased
    · simp [release_credits, hj, hc, hr]
    · by_cases hres : j.creditsReserved
      · have hlook : lookupJob
            (updateJob (fun j => { j with creditsReleased := true }) s.jobs jid)
            jid = some { j with creditsReleased := true } := by
          rw [lookupJob_updateJob, hj]; rfl
        simp [release_credits, hj, hc, hr, hres, hlook]
      · simp [release_credits, hj, hc, hr, hres]

/-- C4 (witness): the three components evaluated on concrete states: a
confirmed job refuses release and nothing changes; an already-released job
releases as a successful no-op; releasing a reserved job twice succeeds and
the second call changes nothing. -/
theorem release_refuses_after_confirm_witness :
    (release_credits
        ⟨⟨100, 5, false, 0⟩, [("a", ⟨5, "completed", true, true, false⟩)]⟩
        "a" 5 =
      (false, ⟨⟨100, 5, false, 0⟩,
        [("a", ⟨5, "completed", true, true, false⟩)]⟩)) ∧
    (release_credits
        ⟨⟨100, 5, false, 0⟩, [("b", ⟨5, "failed", true, false, true⟩)]⟩
        "b" 5 =
      (true, ⟨⟨100, 5, false, 0⟩,
        [("b", ⟨5, "failed", true, false, true⟩)]⟩)) ∧
    (release_credits
        (release_credits
          ⟨⟨100, 5, false, 0⟩, [("d", ⟨5, "failed", true, false, false⟩)]⟩
          "d" 5).2 "d" 5 =
      (true, (release_credits
        ⟨⟨100, 5, false, 0⟩, [("d", ⟨5, "failed", true, false, false⟩)]⟩
        "d" 5).2)) :=
  ⟨(release_refuses_after_confirm_and_is_idempotent _ "a" 5
      ⟨5, "completed", true, true, false⟩ (by decide)).1 rfl,
   (release_refuses_after_confirm_and_is_idempotent _ "b" 5
      ⟨5, "failed", true, false, true⟩ (by decide)).2.1 rfl rfl,
   (release_refuses_after_confirm_and_is_idempotent _ "d" 5
      ⟨5, "failed", true, false, false⟩ (by decide)).2.2 rfl⟩

/-- C6: if a first `confirm_credit_deduction` call for a job returns
success, a second call with the same job id and cost observes
`creditsConfirmed` already set, returns success, and leaves the state --
in particular the user's `credits` and `pendingCredits` -- unchanged, so
two confirms yield the same final balance as one. -/
theorem confirm_is_idempotent (s : LedgerState) (jid : String) (c : ℤ)
    (h : (confirm_credit_deduction s jid c).1 = true) :
    confirm_credit_deduction (confirm_credit_deduction s jid c).2 jid c =
      (true, (confirm_credit_deduction s jid c).2) := by
  rcases hj : lookupJob s.jobs jid with _ | j
  · simp [confirm_credit_deduction, hj] at h
  · by_cases hc : j.creditsConfirmed
    · simp [confirm_credit_deduction, hj, hc]
    · by_cases hr : j.creditsReserved
      · have hlook : lookupJob
            (updateJob (fun j => { j with creditsConfirmed := true }) s.jobs jid)
            jid = some { j with creditsConfirmed := true } := by
          rw [lookupJob_updateJob, hj]; rfl
        simp [confirm_credit_deduction, hj, hc, hr, hlook]
      · simp [confirm_credit_deduction, hj, hc, hr] at h

/-- C6 (witness): confirming job `J1` twice from a concrete reserved state:
the first call succeeds, and the second call returns success and changes
nothing. -/
theorem confirm_is_idempotent_witness :
    confirm_credit_deduction
      (confirm_credit_deduction
        ⟨⟨2000, 10, false, 0⟩, [("J1", ⟨10, "queued", true, false, false⟩)]⟩
        "J1" 7).2 "J1" 7 =
    (true, (confirm_credit_deduction
      ⟨⟨2000, 10, false, 0⟩, [("J1", ⟨10, "queued", true, false, false⟩)]⟩
      "J1" 7).2) :=
  confirm_is_idempotent _ "J1" 7 (by decide)

/-! ## Dialogue chunker

Embeds `chunk_multi_speaker_dialogue(text, voice_samples, max_speakers)`
from `functions/proxy/routes/voice_clone.py` (lines 114-185).  The Python
function first parses its multi-line `text`: a line contributes a segment
iff it contains `':'` and both the stripped label and the stripped
dialogue are non-empty; all other lines are skipped.  The model's input is
that parsed segment sequence (the "ordered list of (speakerLabel,
utterance) pairs" of the spec); each emitted chunk line
`f"{label}: {dialogue}"` is modelled as the pair it renders.
-/

/-- A parsed dialogue line: stripped speaker label and stripped utterance. -/
structure Seg where
  speaker : String
  dialogue : String
deriving DecidableEq, Repr

/-- An emitted chunk: `speakers`, `lines`, `voice_sample_indices`, and the
resolved `voice_samples` list (`[voice_samples[idx] for idx in indices if
idx < len(voice_samples)]`). -/
structure DialogueChunk where
  speakers : List String
  lines : List Seg
  voice_sample_indices : List ℕ
  voice_samples : List String
deriving DecidableEq, Repr

/-- Index of a label in the insertion-ordered key list, modelling the
value stored in the Python dict `speaker_to_sample_idx` (each new key gets
`len(speaker_to_sample_idx)` as its value). -/
def idxOf (l : String) : List String → ℕ
  | [] => 0
  | x :: xs => if x = l then 0 else idxOf l xs + 1

/-- Close the current chunk: attach the resolved voice samples. -/
def finalizeChunk (vs : List String) (speakers : List String)
    (lines : List Seg) (idxs : List ℕ) : DialogueChunk :=
  { speakers := speakers, lines := lines, voice_sample_indices := idxs,
    voice_samples := idxs.filterMap (fun i => vs.get? i) }

/-- The chunker's loop state: emitted chunks, the current chunk under
construction, and the global speaker-to-sample-index dict (modelled by its
insertion-ordered key list). -/
structure ChunkerState where
  chunks : List DialogueChunk
  cur_speakers : List String
  cur_lines : List Seg
  cur_indices : List ℕ
  speaker_keys : List String
deriving DecidableEq, Repr

/-- One iteration of the chunker's `for line in lines` loop. -/
def chunkStep (vs : List String) (max_speakers : ℕ) (st : ChunkerState)
    (seg : Seg) : ChunkerState :=
  let keys :=
    if seg.speaker ∈ st.speaker_keys then st.speaker_keys
    else st.speaker_keys ++ [seg.speaker]
  let sample_idx := idxOf seg.speaker keys
  if seg.speaker ∈ st.cur_speakers then
    { st with speaker_keys := keys, cur_lines := st.cur_lines ++ [seg] }
  else if st.cur_speakers.length < max_speakers then
    { st with
      speaker_keys := keys
      cur_speakers := st.cur_speakers ++ [seg.speaker]
      cur_lines := st.cur_lines ++ [seg]
      cur_indices := st.cur_indices ++ [sample_idx] }
  else
    let chunks' :=
      if st.cur_lines ≠ [] then
        st.chunks ++
          [finalizeChunk vs st.cur_speakers st.cur_lines st.cur_indices]
      else st.chunks
    { chunks := chunks', cur_speakers := [seg.speaker], cur_lines := [seg],
      cur_indices := [sample_idx], speaker_keys := keys }

/-- Emit the final chunk if it has any lines (the `if current_chunk['lines']`
epilogue of the Python loop). -/
def chunkerFinish (vs : List String) (st : ChunkerState) : List DialogueChunk :=
  if st.cur_lines ≠ [] then
    st.chunks ++ [finalizeChunk vs st.cur_speakers st.cur_lines st.cur_indices]
  else st.chunks

/-- Embeds `chunk_multi_speaker_dialogue`: fold the loop over the parsed
segments, then emit the final chunk if it has any lines. -/
def chunk_multi_speaker_dialogue (segs : List Seg) (vs : List String)
    (max_speakers : ℕ) : List DialogueChunk :=
  chunkerFinish vs (segs.foldl (chunkStep vs max_speakers) ⟨[], [], [], [], []⟩)

/-- Accumulator step of first-appearance deduplication. -/
def faStep (acc : List String) (s : String) : List String :=
  if s ∈ acc then acc else acc ++ [s]

/-- Speaker labels of a sequence in order of first appearance. -/
def firstAppearance (ls : List String) : List String := ls.foldl faStep []

lemma mem_foldl_faStep (xs : List String) :
    ∀ acc s, s ∈ xs.foldl faStep acc ↔ s ∈ acc ∨ s ∈ xs := by
  induction xs with
  | nil => simp
  | cons x xs ih =>
    intro acc s
    simp only [List.foldl_cons, ih, faStep]
    by_cases hx : x ∈ acc
    · simp only [hx, if_true, List.mem_cons]
      constructor
      · rintro (h | h)
        · exact Or.inl h
        · exact Or.inr (Or.inr h)
      · rintro (h | h | h)
        · exact Or.inl h
        · subst h; exact Or.inl hx
        · exact Or.inr h
    · simp only [hx, if_false, List.mem_append, List.mem_singleton,
        List.mem_cons]
      tauto

lemma mem_firstAppearance (xs : List String) (s : String) :
    s ∈ firstAppearance xs ↔ s ∈ xs := by
  unfold firstAppearance
  rw [mem_foldl_faStep]
  simp

lemma firstAppearance_append_singleton (xs : List String) (s : String) :
    firstAppearance (xs ++ [s]) = faStep (firstAppearance xs) s := by
  unfold firstAppearance
  rw [List.foldl_append]
  rfl

/-- One chunker step preserves the chunker invariants and appends the
processed segment to the concatenation of all emitted lines. -/
lemma chunkStep_inv (vs : List String) (m : ℕ) (hmax : 0 < m)
    (st : ChunkerState) (seg : Seg)
    (h1 : ∀ ch ∈ st.chunks, ch.speakers.length ≤ m)
    (h2 : ∀ ch ∈ st.chunks,
      ch.speakers = firstAppearance (ch.lines.map Seg.speaker))
    (h3 : st.cur_speakers.length ≤ m)
    (h4 : st.cur_speakers = firstAppearance (st.cur_lines.map Seg.speaker)) :
    (∀ ch ∈ (chunkStep vs m st seg).chunks, ch.speakers.length ≤ m) ∧
    (∀ ch ∈ (chunkStep vs m st seg).chunks,
      ch.speakers = firstAppearance (ch.lines.map Seg.speaker)) ∧
    (chunkStep vs m st seg).cur_speakers.length ≤ m ∧
    (chunkStep vs m st seg).cur_speakers =
      firstAppearance ((chunkStep vs m st seg).cur_lines.map Seg.speaker) ∧
    ((chunkStep vs m st seg).chunks.map DialogueChunk.lines).flatten ++
        (chunkStep vs m st seg).cur_lines =
      (st.chunks.map DialogueChunk.lines).flatten ++ st.cur_lines ++ [seg] := by
  have hmap : (st.cur_lines ++ [seg]).map Seg.speaker =
      st.cur_lines.map Seg.speaker ++ [seg.speaker] := by simp
  by_cases hin : seg.speaker ∈ st.cur_speakers
  · simp only [chunkStep, hin, if_true]
    refine ⟨h1, h2, h3, ?_, by simp⟩
    rw [hmap, firstAppearance_append_singleton, ← h4]
    simp [faStep, hin]
  · by_cases hlt : st.cur_speakers.length < m
    · simp only [chunkStep, hin, if_false, hlt, if_true]
      refine ⟨h1, h2, by simp only [List.length_append, List.length_cons,
        List.length_nil]; omega, ?_, by simp⟩
      rw [hmap, firstAppearance_append_singleton, ← h4]
      simp [faStep, hin]
    · have hne : st.cur_lines ≠ [] := by
        intro hemp
        rw [hemp] at h4
        simp [firstAppearance] at h4
        rw [h4] at hlt
        simp only [List.length_nil, not_lt, Nat.le_zero] at hlt
        omega
      simp only [chunkStep, hin, if_false, hlt, hne, ite_not]
      refine ⟨?_, ?_, by simpa using hmax, ?_, ?_⟩
      · intro ch hch
        rcases List.mem_append.1 hch with hold | hnew
        · exact h1 ch hold
        · rcases List.mem_singleton.1 hnew with rfl
          exact h3
      · intro ch hch
        rcases List.mem_append.1 hch with hold | hnew
        · exact h2 ch hold
        · rcases List.mem_singleton.1 hnew with rfl
          exact h4
      · simp [firstAppearance, faStep]
      · simp [finalizeChunk]

/-- Folding the chunker loop over any segment list preserves the chunker
invariants and appends the processed segments to the emitted lines. -/
lemma chunkFold_inv (vs : List String) (m : ℕ) (hmax : 0 < m)
    (segs : List Seg) :
    ∀ st : ChunkerState,
      (∀ ch ∈ st.chunks, ch.speakers.length ≤ m) →
      (∀ ch ∈ st.chunks,
        ch.speakers = firstAppearance (ch.lines.map Seg.speaker)) →
      st.cur_speakers.length ≤ m →
      st.cur_speakers = firstAppearance (st.cur_lines.map Seg.speaker) →
      (∀ ch ∈ (segs.foldl (chunkStep vs m) st).chunks,
        ch.speakers.length ≤ m) ∧
      (∀ ch ∈ (segs.foldl (chunkStep vs m) st).chunks,
        ch.speakers = firstAppearance (ch.lines.map Seg.speaker)) ∧
      (segs.foldl (chunkStep vs m) st).cur_speakers.length ≤ m ∧
      (segs.foldl (chunkStep vs m) st).cur_speakers =
        firstAppearance
          ((segs.foldl (chunkStep vs m) st).cur_lines.map Seg.speaker) ∧
      (((segs.foldl (chunkStep vs m) st).chunks.map
          DialogueChunk.lines).flatten ++
          (segs.foldl (chunkStep vs m) st).cur_lines =
        (st.chunks.map DialogueChunk.lines).flatten ++ st.cur_lines ++ segs) := by
  induction segs with
  | nil => intro st h1 h2 h3 h4; exact ⟨h1, h2, h3, h4, by simp⟩
  | cons seg rest ih =>
    intro st h1 h2 h3 h4
    obtain ⟨g1, g2, g3, g4, g5⟩ := chunkStep_inv vs m hmax st seg h1 h2 h3 h4
    obtain ⟨f1, f2, f3, f4, f5⟩ := ih (chunkStep vs m st seg) g1 g2 g3 g4
    refine ⟨by simpa using f1, by simpa using f2, by simpa using f3,
      by simpa using f4, ?_⟩
    simp only [List.foldl_cons]
    rw [f5, g5]
    simp

/-- C5: for every parsed dialogue input and every positive speaker limit,
every chunk emitted by `chunk_multi_speaker_dialogue` has at most
`max_speakers` speakers, concatenating all chunks' lines in emission order
reproduces the original segment sequence exactly, and each chunk's
`speakers` list is the chunk's speaker labels in first-appearance order. -/
theorem chunker_correct (segs : List Seg) (vs : List String)
    (max_speakers : ℕ) (hmax : 0 < max_speakers) :
    (∀ ch ∈ chunk_multi_speaker_dialogue segs vs max_speakers,
      ch.speakers.length ≤ max_speakers) ∧
    ((chunk_multi_speaker_dialogue segs vs max_speakers).map
      DialogueChunk.lines).flatten = segs ∧
    (∀ ch ∈ chunk_multi_speaker_dialogue segs vs max_speakers,
      ch.speakers = firstAppearance (ch.lines.map Seg.speaker)) := by
  obtain ⟨f1, f2, f3, f4, f5⟩ :=
    chunkFold_inv vs max_speakers hmax segs ⟨[], [], [], [], []⟩
      (by simp) (by simp) (by simp) (by simp [firstAppearance])
  simp only at f5
  unfold chunk_multi_speaker_dialogue chunkerFinish
  by_cases hne :
    (segs.foldl (chunkStep vs max_speakers) ⟨[], [], [], [], []⟩).cur_lines = []
  · rw [hne] at f5
    simp only [hne, ne_eq, not_true_eq_false, if_false]
    refine ⟨f1, ?_, f2⟩
    simpa using f5
  · simp only [ne_eq, hne, not_false_eq_true, if_true]
    refine ⟨?_, ?_, ?_⟩
    · intro ch hch
      rcases List.mem_append.1 hch with hold | hnew
      · exact f1 ch hold
      · rcases List.mem_singleton.1 hnew with rfl
        exact f3
    · rw [List.map_append]
      rw [List.flatten_append]
      simpa [finalizeChunk] using f5
    · intro ch hch
      rcases List.mem_append.1 hch with hold | hnew
      · exact f2 ch hold
      · rcases List.mem_singleton.1 hnew with rfl
        exact f4

/-- C5 (witness): the chunker applied to the spec scenario (speakers A-E one
line each, limit 4): all three properties at this concrete input, and the
concatenation of all emitted lines reproduces the input exactly. -/
theorem chunker_correct_witness :
    ((chunk_multi_speaker_dialogue
        [⟨"A", "a"⟩, ⟨"B", "b"⟩, ⟨"C", "c"⟩, ⟨"D", "d"⟩, ⟨"E", "e"⟩]
        ["s1", "s2", "s3", "s4", "s5"] 4).map DialogueChunk.lines).flatten =
      [⟨"A", "a"⟩, ⟨"B", "b"⟩, ⟨"C", "c"⟩, ⟨"D", "d"⟩, ⟨"E", "e"⟩] :=
  (chunker_correct
    [⟨"A", "a"⟩, ⟨"B", "b"⟩, ⟨"C", "c"⟩, ⟨"D", "d"⟩, ⟨"E", "e"⟩]
    ["s1", "s2", "s3", "s4", "s5"] 4 (by decide)).2.1

/-! ## Chunk completion and merge trigger

Embeds the job-document handling of `clone_audio_route` from
`functions/inference/routes/clone_audio.py` (lines 70-204) on its success
path.  The route is NOT a Firestore transaction: it reads the job document
once (`job_ref.get()`), mutates the local `cloned_chunks` snapshot, writes
it back with plain `job_ref.update`, computes
`completed_count = sum(1 for c in cloned_chunks if c["status"]=="completed")`
from the local snapshot, and queues the merge task when
`completed_count == total_chunks`.  The model below replays one delivery
of a chunk task to completion (the external inference call succeeding) and
counts how many merge tasks get queued.
-/

/-- Status of one entry of `clonedAudioChunks`. -/
inductive ChunkStatus where
  | pending
  | processing
  | completed
  | failed
deriving DecidableEq, Repr

/-- The job-document state read and written by `clone_audio_route`:
the chunk status array, the persisted `completedChunks` counter, and the
number of merge tasks queued so far. -/
structure CloneJobState where
  chunks : List ChunkStatus
  completedChunks : ℕ
  mergeTasksQueued : ℕ
deriving DecidableEq, Repr

/-- Embeds one successful delivery of the chunk task for `chunk_id`:
snapshot read, local mutation to `processing` then `completed`, write-back
of the whole array together with the locally computed counter, and the
merge enqueue when the local count equals the total. -/
def clone_audio_route (s : CloneJobState) (chunk_id : ℕ) : CloneJobState :=
  let cloned := s.chunks
  let cloned := cloned.set chunk_id ChunkStatus.processing
  let cloned := cloned.set chunk_id ChunkStatus.completed
  let completed_count :=
    (cloned.filter (fun c => c = ChunkStatus.completed)).length
  let total_chunks := cloned.length
  let s' : CloneJobState :=
    { chunks := cloned, completedChunks := completed_count
      mergeTasksQueued := s.mergeTasksQueued }
  if completed_count = total_chunks then
    { s' with mergeTasksQueued := s'.mergeTasksQueued + 1 }
  else s'

/-- Deliver a sequence of chunk tasks one after the other. -/
def deliverChunkTasks (s : CloneJobState) (deliveries : List ℕ) :
    CloneJobState :=
  deliveries.foldl clone_audio_route s

/-- A fresh dubbing job with `n` pending chunks and no merge queued. -/
def freshCloneJob (n : ℕ) : CloneJobState :=
  { chunks := List.replicate n ChunkStatus.pending, completedChunks := 0
    mergeTasksQueued := 0 }

/-- C1: the merge trigger is NOT exactly-once under at-least-once delivery.
For a 2-chunk job, the delivery order `[0, 1, 1]` -- chunk 0 once, chunk 1
delivered twice, as the at-least-once queue may do -- queues the merge task
twice: `clone_audio_route` re-marks the redelivered chunk completed from a
plain read-modify-write (no transaction) and re-observes
`completed_count == total_chunks`.  Every chunk was delivered at least
once and all chunks end up completed, yet `mergeTasksQueued = 2`, not 1. -/
theorem clone_audio_merge_fires_twice :
    (deliverChunkTasks (freshCloneJob 2) [0, 1, 1]).chunks =
        [ChunkStatus.completed, ChunkStatus.completed] ∧
    (deliverChunkTasks (freshCloneJob 2) [0, 1, 1]).mergeTasksQueued = 2 ∧
    ¬(deliverChunkTasks (freshCloneJob 2) [0, 1, 1]).mergeTasksQueued = 1 := by
  decide

/-! ## Retry middleware

Embeds `get_retry_info` and `update_job_retry_status` from
`functions/inference/middleware.py` (lines 312-353) and the failure path
of `merge_video_route` from `functions/inference/routes/merge_video.py`
(lines 23-35 and 196-207).  Both middleware helpers read
`config.MAX_RETRY_ATTEMPTS`, a Python attribute access on the `Config`
instance built in `functions/inference/config.py`; `Config.__init__`
(lines 15-78) never sets that attribute and nothing assigns it anywhere in
the inference service (the only definition is a module-local constant in
`routes/inference.py`, used only by that module's own retry code), so the
access raises `AttributeError`.  The attribute is therefore modelled as an
`Option` field and the attribute read as a fallible lookup; computations
that can raise return `Except`.  The retry count comes from the
`X-CloudTasks-TaskRetryCount` header (a non-negative integer, default 0).
Timestamp fields (`failedAt`, `updatedAt`) are omitted.
-/

/-- The Python exception an undefined attribute access raises. -/
inductive PyError where
  | attributeError
deriving DecidableEq, Repr

/-- The attributes of the `Config` object that the retry middleware reads.
`MAX_RETRY_ATTEMPTS` is `none` when `Config.__init__` did not set it. -/
structure InferenceConfig where
  MAX_RETRY_ATTEMPTS : Option ℕ
deriving DecidableEq, Repr

/-- Python attribute access `config.MAX_RETRY_ATTEMPTS`: raises
`AttributeError` when the attribute was never set. -/
def InferenceConfig.getMaxRetryAttempts (c : InferenceConfig) :
    Except PyError ℕ :=
  match c.MAX_RETRY_ATTEMPTS with
  | some v => Except.ok v
  | none => Except.error PyError.attributeError

/-- The `Config` instance the inference service actually constructs:
`__init__` assigns many attributes but never `MAX_RETRY_ATTEMPTS`. -/
def inferenceConfig : InferenceConfig :=
  { MAX_RETRY_ATTEMPTS := none }

/-- Job-document fields written by `update_job_retry_status`. -/
structure RetryJobDoc where
  status : String
  error : Option String
  lastError : Option String
  retryCount : ℕ
  retriesExhausted : Bool
  maxRetries : Option ℕ
  nextRetryAttempt : Option ℕ
deriving DecidableEq, Repr

/-- Embeds `get_retry_info()`: reads the header counter, then
`config.MAX_RETRY_ATTEMPTS`, then returns
`(retry_count, retry_count > 0, retry_count >= max_retries)`. -/
def get_retry_info (c : InferenceConfig) (retry_count : ℕ) :
    Except PyError (ℕ × Bool × Bool) := do
  let max_retries ← c.getMaxRetryAttempts
  return (retry_count, decide (0 < retry_count),
    decide (max_retries ≤ retry_count))

/-- Embeds `update_job_retry_status(job_ref, retry_count, error_message,
is_final, max_retries=None)`: when `max_retries` is `None` (how
`merge_video_route` calls it) the function first reads
`config.MAX_RETRY_ATTEMPTS` -- before either branch, so the read happens
even though the final branch never uses the value -- then persists either
the failed or the retrying fields. -/
def update_job_retry_status (c : InferenceConfig) (job : RetryJobDoc)
    (retry_count : ℕ) (error_message : String) (is_final : Bool)
    (max_retries_arg : Option ℕ) : Except PyError RetryJobDoc := do
  let max_retries ←
    match max_retries_arg with
    | none => c.getMaxRetryAttempts
    | some v => pure v
  if is_final then
    return { job with
      status := "failed"
      error := some error_message
      retryCount := retry_count
      retriesExhausted := true }
  else
    return { job with
      status := "retrying"
      lastError := some error_message
      retryCount := retry_count
      maxRetries := some max_retries
      nextRetryAttempt := some (retry_count + 1) }

/-- Embeds what `merge_video_route` does about a handler failure: the
route calls `get_retry_info()` at entry (line 26, before any job work);
in the `except` handler it persists via `update_job_retry_status` (with
the default `max_retries=None`) and, on the final attempt only, calls
`release_credits` with `job_data.get("cost", 0)`.  Returns the updated
job document, whether release was called, and the cost passed to release
-- or the exception that escaped instead. -/
def merge_video_on_failure (c : InferenceConfig) (job : RetryJobDoc)
    (job_cost : ℤ) (retry_count : ℕ) (error_msg : String) :
    Except PyError (RetryJobDoc × Bool × ℤ) := do
  let info ← get_retry_info c retry_count
  let is_final_attempt := info.2.2
  if is_final_attempt then
    let job2 ← update_job_retry_status c job info.1 error_msg true none
    return (job2, true, job_cost)
  else
    let job2 ← update_job_retry_status c job info.1 error_msg false none
    return (job2, false, 0)

/-- C7 (code evaluated at the failing input): with the `Config` the
inference service actually builds, `get_retry_info` raises
`AttributeError` at every attempt count, `update_job_retry_status` called
the way `merge_video_route` calls it raises before persisting anything,
and the merge-video failure path raises on non-final and final attempts
alike -- so `isFinalAttempt` is never computed, no `retrying`/`failed`
status is persisted, and release is never called through this path. -/
theorem retry_middleware_crashes_on_missing_config :
    get_retry_info inferenceConfig 0 =
        Except.error PyError.attributeError ∧
    get_retry_info inferenceConfig 2 =
        Except.error PyError.attributeError ∧
    update_job_retry_status inferenceConfig
        ⟨"merging", none, none, 0, false, none, none⟩ 2 "boom" true none =
      Except.error PyError.attributeError ∧
    merge_video_on_failure inferenceConfig
        ⟨"merging", none, none, 0, false, none, none⟩ 9 0 "boom" =
      Except.error PyError.attributeError ∧
    merge_video_on_failure inferenceConfig
        ⟨"merging", none, none, 0, false, none, none⟩ 9 2 "boom" =
      Except.error PyError.attributeError :=
  ⟨rfl, rfl, rfl, rfl, rfl⟩

/-- For a config whose `MAX_RETRY_ATTEMPTS` attribute is set, the handler
behaves as the claim describes: `isFinalAttempt = attemptCount >=
maxRetryAttempts`; a non-final failure persists `status=retrying` with
`lastError` and `retryCount` and does not release; a final failure
persists `status=failed` with `retriesExhausted=true` and releases the
job's reserved cost.  This is the intended behavior the missing attribute
prevents from ever running. -/
lemma retry_policy_when_configured (m : ℕ) (job : RetryJobDoc)
    (job_cost : ℤ) (retry_count : ℕ) (error_msg : String) :
    (get_retry_info ⟨some m⟩ retry_count =
      Except.ok (retry_count, decide (0 < retry_count),
        decide (m ≤ retry_count))) ∧
    (retry_count < m →
      merge_video_on_failure ⟨some m⟩ job job_cost retry_count error_msg =
        Except.ok ({ job with
          status := "retrying"
          lastError := some error_msg
          retryCount := retry_count
          maxRetries := some m
          nextRetryAttempt := some (retry_count + 1) }, false, 0)) ∧
    (m ≤ retry_count →
      merge_video_on_failure ⟨some m⟩ job job_cost retry_count error_msg =
        Except.ok ({ job with
          status := "failed"
          error := some error_msg
          retryCount := retry_count
          retriesExhausted := true }, true, job_cost)) := by
  refine ⟨rfl, fun hlt => ?_, fun hge => ?_⟩
  · have hfin : decide (m ≤ retry_count) = false := by
      simp [Nat.not_le_of_lt hlt]
    simp [merge_video_on_failure, get_retry_info, update_job_retry_status,
      InferenceConfig.getMaxRetryAttempts, hfin, bind, Except.bind, pure, Except.pure]
  · have hfin : decide (m ≤ retry_count) = true := by simp [hge]
    simp [merge_video_on_failure, get_retry_info, update_job_retry_status,
      InferenceConfig.getMaxRetryAttempts, hfin, bind, Except.bind, pure, Except.pure]

/-! ## Audio time stretch

Embeds `time_stretch_segment(audio_path, target_duration)` from
`functions/inference/utils/audio_processor.py` (lines 66-123).  The audio
file itself is summarised by its duration `len(audio_data)/sample_rate`;
the function's decision -- pass through, stretch with pyrubberband, or fall
back to `_time_stretch_ffmpeg` when the import fails or the stretch call
raises -- is the modelled output.  Whether pyrubberband is importable and
succeeds is an environment fact, passed in as an oracle.
-/

/-- Availability and outcome of the preferred pyrubberband primitive. -/
inductive RubberbandStatus where
  | ok
  | unavailable
  | failed
deriving DecidableEq, Repr

/-- What `time_stretch_segment` does with a segment. -/
inductive StretchOutcome where
  | passthrough
  | rubberband (speed_rate : ℚ)
  | ffmpegAtempo (speed_factor : ℚ)
deriving DecidableEq, Repr

/-- The stretch factor applied, if any. -/
def StretchOutcome.speedApplied : StretchOutcome → Option ℚ
  | .passthrough => none
  | .rubberband r => some r
  | .ffmpegAtempo r => some r

/-- Embeds `time_stretch_segment`: if
`abs(current_duration - target_duration) < 0.1` return the input path
unchanged; otherwise stretch at `current_duration / target_duration`,
using pyrubberband when it imports and succeeds, else
`_time_stretch_ffmpeg(audio_path, current_duration, target_duration)`
(which computes the same `speed_factor = current_duration /
target_duration` for its atempo chain). -/
def time_stretch_segment (current_duration target_duration : ℚ)
    (rb : RubberbandStatus) : StretchOutcome :=
  if |current_duration - target_duration| < 1 / 10 then
    StretchOutcome.passthrough
  else
    match rb with
    | .ok => StretchOutcome.rubberband (current_duration / target_duration)
    | .unavailable =>
      StretchOutcome.ffmpegAtempo (current_duration / target_duration)
    | .failed =>
      StretchOutcome.ffmpegAtempo (current_duration / target_duration)

/-- C8: a segment whose duration is within 0.1 s of the target passes
through unchanged (and only such segments do); every stretched segment is
stretched at `current_duration / target_duration`; and whenever the
pyrubberband primitive is unavailable or fails, the stretch is the FFmpeg
atempo fallback at that same factor. -/
theorem time_stretch_policy (current_duration target_duration : ℚ)
    (rb : RubberbandStatus) :
    (time_stretch_segment current_duration target_duration rb =
        StretchOutcome.passthrough ↔
      |current_duration - target_duration| < 1 / 10) ∧
    (¬|current_duration - target_duration| < 1 / 10 →
      (time_stretch_segment current_duration target_duration
          rb).speedApplied = some (current_duration / target_duration)) ∧
    (¬|current_duration - target_duration| < 1 / 10 → rb ≠ .ok →
      time_stretch_segment current_duration target_duration rb =
        StretchOutcome.ffmpegAtempo
          (current_duration / target_duration)) := by
  by_cases h : |current_duration - target_duration| < 1 / 10
  · exact ⟨by simp only [time_stretch_segment, if_pos h]; exact iff_of_true trivial h,
      fun hn => absurd h hn, fun hn _ => absurd h hn⟩
  · refine ⟨?_, fun _ => ?_, fun _ hrb => ?_⟩
    · simp only [time_stretch_segment, h, if_false]
      cases rb <;> simp [h]
    · simp only [time_stretch_segment, h, if_false]
      cases rb <;> simp [StretchOutcome.speedApplied]
    · simp only [time_stretch_segment, h, if_false]
      cases rb <;> simp_all

/-- C8 (witness): the spec scenario, a 9.4 s clip against a 10.0 s target
with pyrubberband unavailable: the difference 0.6 s is not below the
0.1 s threshold, so the segment is stretched by the FFmpeg fallback at
factor 9.4/10 = 0.94. -/
theorem time_stretch_policy_witness :
    time_stretch_segment (47 / 5) 10 RubberbandStatus.unavailable =
      StretchOutcome.ffmpegAtempo (47 / 50) := by
  have habs : |(47 : ℚ) / 5 - 10| = 3 / 5 := by
    rw [show (47 : ℚ) / 5 - 10 = -(3 / 5) by norm_num, abs_neg,
      abs_of_pos (by norm_num : (0 : ℚ) < 3 / 5)]
  have h := (time_stretch_policy (47 / 5) 10 RubberbandStatus.unavailable).2.2
    (by rw [habs]; norm_num) (by decide)
  rw [h]
  norm_num

/-! ## Speaker cluster id assignment

Embeds the mapping construction of `cluster_speakers_embeddings` from
`functions/inference/utils/speaker_clustering.py` (lines 84-116).  The
embedding and DBSCAN steps are external (resemblyzer / scikit-learn); their
combined outcome per input segment is the model's input: `none` for a
segment excluded from clustering (shorter than 0.5 s, or failed
preprocessing) and `some l` for a clustered segment with DBSCAN label `l`
(where `-1` marks a noise point; DBSCAN labels are always `>= -1`).
The Python dict `speaker_mapping : index -> id` is modelled positionally
as a `List (Option Int)` in which `none` marks an index not yet present.
-/

/-- Embeds `max(labels) if len(labels) > 0 else -1` (for DBSCAN label lists,
which are non-empty here and bounded below by -1, the fold equals the
Python `max`). -/
def dbscanMaxLabel (labels : List (Option ℤ)) : ℤ :=
  (labels.filterMap id).foldl max (-1)

/-- Number of noise-labelled segments. -/
def noiseCount (labels : List (Option ℤ)) : ℕ :=
  (labels.filter (fun o => o = some (-1))).length

/-- Number of noise-labelled segments strictly before index `i`. -/
def noiseBefore (labels : List (Option ℤ)) (i : ℕ) : ℕ :=
  noiseCount (labels.take i)

/-- Embeds the first loop (`for valid_idx, label in zip(valid_indices,
labels)`): clustered segments keep their label, noise points get
`next_noise_id` which then increments; excluded segments stay absent.
Returns the mapping and the final `next_noise_id`. -/
def assignValid : List (Option ℤ) → ℤ → List (Option ℤ) × ℤ
  | [], n => ([], n)
  | none :: rest, n =>
    let r := assignValid rest n
    (none :: r.1, r.2)
  | some l :: rest, n =>
    if l = -1 then
      let r := assignValid rest (n + 1)
      (some n :: r.1, r.2)
    else
      let r := assignValid rest n
      (some l :: r.1, r.2)

/-- Embeds the backward scan `for j in range(i - 1, -1, -1): if j in
speaker_mapping: prev_speaker = speaker_mapping[j]; break`. -/
def scanPrev (m : List (Option ℤ)) : ℕ → Option ℤ
  | 0 => none
  | j + 1 =>
    match m[j]? with
    | some (some v) => some v
    | _ => scanPrev m j

/-- Embeds one iteration of the fill loop (`for i in range(len(
audio_chunk_paths)): if i not in speaker_mapping: ...`): an absent index
receives the nearest preceding assigned id, or `next_noise_id` (which then
increments) when the scan finds nothing. -/
def fillStep (st : List (Option ℤ) × ℤ) (i : ℕ) : List (Option ℤ) × ℤ :=
  match st.1[i]? with
  | some none =>
    match scanPrev st.1 i with
    | some p => (st.1.set i (some p), st.2)
    | none => (st.1.set i (some st.2), st.2 + 1)
  | _ => st

/-- Run the fill loop over all indices. -/
def fillAll (m : List (Option ℤ)) (n : ℤ) : List (Option ℤ) × ℤ :=
  (List.range m.length).foldl fillStep (m, n)

/-- Embeds `cluster_speakers_embeddings` from the point where embeddings
and DBSCAN labels exist: `None` when there is no valid embedding (the
Python function raises `ValueError`), otherwise the per-index speaker id
mapping.  After the fill loop every index is assigned, so the final
`getD 0` is never the default. -/
def cluster_speakers_embeddings (labels : List (Option ℤ)) :
    Option (List ℤ) :=
  if labels.all Option.isNone then none
  else
    some ((fillAll (assignValid labels (dbscanMaxLabel labels + 1)).1
      (assignValid labels (dbscanMaxLabel labels + 1)).2).1.map
        (fun o => o.getD 0))

/-- Reference value of the fill loop at index `i`: the pass-1 id if the
index is assigned, inherited from the previous index otherwise, with `c`
(the post-pass-1 `next_noise_id`) at index 0. -/
def inheritVal (m : List (Option ℤ)) (c : ℤ) : ℕ → ℤ
  | 0 =>
    match m[0]? with
    | some (some v) => v
    | _ => c
  | i + 1 =>
    match m[i + 1]? with
    | some (some v) => v
    | _ => inheritVal m c i

lemma assignValid_length (ls : List (Option ℤ)) :
    ∀ n, (assignValid ls n).1.length = ls.length := by
  induction ls with
  | nil => intro n; rfl
  | cons x rest ih =>
    intro n
    cases x with
    | none => simp [assignValid, ih]
    | some l =>
      by_cases hl : l = -1 <;> simp [assignValid, hl, ih]

lemma assignValid_counter (ls : List (Option ℤ)) :
    ∀ n, (assignValid ls n).2 = n + noiseCount ls := by
  induction ls with
  | nil => intro n; simp [assignValid, noiseCount]
  | cons x rest ih =>
    intro n
    cases x with
    | none => simp [assignValid, ih, noiseCount]
    | some l =>
      by_cases hl : l = -1
      · subst hl
        simp only [assignValid, if_pos rfl, ih]
        simp [noiseCount]
        omega
      · simp [assignValid, hl, ih, noiseCount]

lemma assignValid_excluded (ls : List (Option ℤ)) :
    ∀ (n : ℤ) (i : ℕ), ls[i]? = some none →
      (assignValid ls n).1[i]? = some none := by
  induction ls with
  | nil => intro n i h; simp at h
  | cons x rest ih =>
    intro n i h
    cases i with
    | zero =>
      simp at h
      subst h
      simp [assignValid]
    | succ i =>
      simp only [List.getElem?_cons_succ] at h
      cases x with
      | none => simpa [assignValid] using ih n i h
      | some l =>
        by_cases hl : l = -1 <;> simpa [assignValid, hl] using ih _ i h

lemma assignValid_cluster (ls : List (Option ℤ)) :
    ∀ (n : ℤ) (i : ℕ) (l : ℤ), ls[i]? = some (some l) → l ≠ -1 →
      (assignValid ls n).1[i]? = some (some l) := by
  induction ls with
  | nil => intro n i l h _; simp at h
  | cons x rest ih =>
    intro n i l h hl
    cases i with
    | zero =>
      simp at h
      subst h
      simp [assignValid, hl]
    | succ i =>
      simp only [List.getElem?_cons_succ] at h
      cases x with
      | none => simpa [assignValid] using ih n i l h hl
      | some l' =>
        by_cases hl' : l' = -1 <;>
          simpa [assignValid, hl'] using ih _ i l h hl

lemma noiseBefore_cons_noise (rest : List (Option ℤ)) (i : ℕ) :
    noiseBefore ((some (-1) : Option ℤ) :: rest) (i + 1) =
      1 + noiseBefore rest i := by
  simp only [noiseBefore, List.take_succ_cons, noiseCount, List.filter_cons]
  simp
  omega

lemma noiseBefore_cons_other (rest : List (Option ℤ)) (x : Option ℤ)
    (i : ℕ) (hx : x ≠ some (-1)) :
    noiseBefore (x :: rest) (i + 1) = noiseBefore rest i := by
  simp only [noiseBefore, List.take_succ_cons, noiseCount, List.filter_cons]
  simp [hx]

lemma assignValid_noise (ls : List (Option ℤ)) :
    ∀ (n : ℤ) (i : ℕ), ls[i]? = some (some (-1)) →
      (assignValid ls n).1[i]? = some (some (n + noiseBefore ls i)) := by
  induction ls with
  | nil => intro n i h; simp at h
  | cons x rest ih =>
    intro n i h
    cases i with
    | zero =>
      simp at h
      subst h
      simp [assignValid, noiseBefore, noiseCount]
    | succ i =>
      simp only [List.getElem?_cons_succ] at h
      cases x with
      | none =>
        have hrec := ih n i h
        rw [noiseBefore_cons_other rest none i (by simp)]
        simp only [assignValid]
        rw [List.getElem?_cons_succ, hrec]
      | some l' =>
        by_cases hl' : l' = -1
        · subst hl'
          have hrec := ih (n + 1) i h
          rw [noiseBefore_cons_noise]
          simp only [assignValid, if_true]
          rw [List.getElem?_cons_succ, hrec]
          congr 2
          push_cast
          ring
        · have hrec := ih n i h
          rw [noiseBefore_cons_other rest (some l') i (by simp [hl'])]
          simp only [assignValid, hl', if_false]
          rw [List.getElem?_cons_succ, hrec]

lemma inheritVal_assigned (m : List (Option ℤ)) (c : ℤ) (k : ℕ) (v : ℤ)
    (h : m[k]? = some (some v)) : inheritVal m c k = v := by
  cases k <;> simp [inheritVal, h]

lemma inheritVal_unassigned_zero (m : List (Option ℤ)) (c : ℤ)
    (h : m[0]? = some none) : inheritVal m c 0 = c := by
  simp [inheritVal, h]

lemma inheritVal_unassigned_succ (m : List (Option ℤ)) (c : ℤ) (k : ℕ)
    (h : m[k + 1]? = some none) :
    inheritVal m c (k + 1) = inheritVal m c k := by
  simp [inheritVal, h]

lemma scanPrev_succ_assigned (m : List (Option ℤ)) (k : ℕ) (v : ℤ)
    (h : m[k]? = some (some v)) : scanPrev m (k + 1) = some v := by
  simp [scanPrev, h]

/-- Invariant of the fill loop after processing indices `0..k-1`: the list
keeps its length, indices at or past `k` are untouched, and every index
below `k` holds its `inheritVal` reference value. -/
lemma fillInv (m : List (Option ℤ)) (c : ℤ) :
    ∀ k, k ≤ m.length →
      ((List.range k).foldl fillStep (m, c)).1.length = m.length ∧
      (∀ j, k ≤ j → ((List.range k).foldl fillStep (m, c)).1[j]? = m[j]?) ∧
      (∀ j, j < k → ((List.range k).foldl fillStep (m, c)).1[j]? =
        some (some (inheritVal m c j))) := by
  intro k
  induction k with
  | zero =>
    intro _
    exact ⟨rfl, fun j _ => rfl, fun j hj => absurd hj (by omega)⟩
  | succ k ih =>
    intro hk
    obtain ⟨l1, l2, l3⟩ := ih (by omega)
    rw [List.range_succ, List.foldl_append, List.foldl_cons, List.foldl_nil]
    set st := (List.range k).foldl fillStep (m, c) with hst
    have hcur : st.1[k]? = m[k]? := l2 k le_rfl
    have hklen : k < m.length := by omega
    obtain ⟨o, ho⟩ : ∃ o, m[k]? = some o :=
      ⟨m[k], List.getElem?_eq_getElem hklen⟩
    cases o with
    | some v =>
      have hfs : fillStep st k = st := by
        rw [fillStep, hcur, ho]
      rw [hfs]
      refine ⟨l1, fun j hj => l2 j (by omega), fun j hj => ?_⟩
      rcases Nat.lt_succ_iff_lt_or_eq.1 hj with hj' | rfl
      · exact l3 j hj'
      · rw [hcur, ho, inheritVal_assigned m c j v ho]
    | none =>
      have hcur' : st.1[k]? = some none := by rw [hcur, ho]
      cases k with
      | zero =>
        have hst0 : st = (m, c) := by rw [hst]; rfl
        rw [hst0]
        have hfs : fillStep (m, c) 0 = (m.set 0 (some c), c + 1) := by
          rw [fillStep]
          dsimp only
          rw [ho]
          rfl
        rw [hfs]
        refine ⟨by simp, fun j hj => ?_, fun j hj => ?_⟩
        · rw [List.getElem?_set_ne (by omega)]
        · have hj0 : j = 0 := by omega
          subst hj0
          rw [List.getElem?_set_self (by simpa using hklen),
            inheritVal_unassigned_zero m c ho]
      | succ k' =>
        have hprev : st.1[k']? = some (some (inheritVal m c k')) :=
          l3 k' (by omega)
        have hscan : scanPrev st.1 (k' + 1) = some (inheritVal m c k') :=
          scanPrev_succ_assigned _ _ _ hprev
        have hfs : fillStep st (k' + 1) =
            (st.1.set (k' + 1) (some (inheritVal m c k')), st.2) := by
          rw [fillStep, hcur', hscan]
        rw [hfs]
        refine ⟨by simp [l1], fun j hj => ?_, fun j hj => ?_⟩
        · rw [List.getElem?_set_ne (by omega)]
          exact l2 j (by omega)
        · rcases Nat.lt_succ_iff_lt_or_eq.1 hj with hj' | rfl
          · rw [List.getElem?_set_ne (by omega)]
            exact l3 j hj'
          · rw [List.getElem?_set_self (by rw [l1]; exact hklen),
              inheritVal_unassigned_succ m c k' ho]

/-- After the fill loop every index holds its reference value. -/
lemma fillAll_spec (m : List (Option ℤ)) (c : ℤ) :
    (fillAll m c).1.length = m.length ∧
    ∀ j, j < m.length →
      (fillAll m c).1[j]? = some (some (inheritVal m c j)) := by
  obtain ⟨l1, _, l3⟩ := fillInv m c m.length le_rfl
  exact ⟨l1, fun j hj => l3 j hj⟩

/-- Inheritance chains across a block of unassigned indices. -/
lemma inheritVal_chain (m : List (Option ℤ)) (c : ℤ) (j : ℕ) :
    ∀ i, j ≤ i → (∀ k, j < k → k ≤ i → m[k]? = some none) →
      inheritVal m c i = inheritVal m c j := by
  intro i
  induction i with
  | zero =>
    intro hj _
    have : j = 0 := by omega
    subst this
    rfl
  | succ i ih =>
    intro hj hall
    by_cases hje : j = i + 1
    · subst hje; rfl
    · have hji : j ≤ i := by omega
      rw [inheritVal_unassigned_succ m c i (hall (i + 1) (by omega) le_rfl)]
      exact ih hji (fun k hk1 hk2 => hall k hk1 (by omega))

lemma foldl_max_init_le (l : List ℤ) : ∀ a : ℤ, a ≤ l.foldl max a := by
  induction l with
  | nil => intro a; simp
  | cons x xs ih =>
    intro a
    exact le_trans (le_max_left a x) (ih (max a x))

lemma le_foldl_max (l : List ℤ) : ∀ (a z : ℤ), z ∈ l → z ≤ l.foldl max a := by
  induction l with
  | nil => intro a z h; simp at h
  | cons x xs ih =>
    intro a z h
    rcases List.mem_cons.1 h with rfl | h'
    · exact le_trans (le_max_right a z) (foldl_max_init_le xs (max a z))
    · exact ih (max a x) z h'

/-- A segment's DBSCAN label never exceeds the maximum label. -/
lemma le_dbscanMaxLabel (labels : List (Option ℤ)) (z : ℤ)
    (hz : z ∈ labels.filterMap id) : z ≤ dbscanMaxLabel labels :=
  le_foldl_max _ _ z hz

lemma noiseBefore_mono (labels : List (Option ℤ)) (a b : ℕ) (hab : a ≤ b) :
    noiseBefore labels a ≤ noiseBefore labels b := by
  have h : labels.take a = (labels.take b).take a := by
    rw [List.take_take, min_eq_left hab]
  rw [noiseBefore, noiseBefore, h, noiseCount, noiseCount]
  exact List.Sublist.length_le
    (List.Sublist.filter _ (List.take_sublist a (labels.take b)))

lemma noiseBefore_succ_noise (labels : List (Option ℤ)) (i : ℕ)
    (hi : labels[i]? = some (some (-1))) :
    noiseBefore labels (i + 1) = noiseBefore labels i + 1 := by
  rw [noiseBefore, noiseBefore, List.take_succ, hi]
  simp [noiseCount, List.filter_append]

lemma noiseBefore_strict (labels : List (Option ℤ)) (i j : ℕ) (hij : i < j)
    (hi : labels[i]? = some (some (-1))) :
    noiseBefore labels i < noiseBefore labels j := by
  have h1 := noiseBefore_succ_noise labels i hi
  have h2 := noiseBefore_mono labels (i + 1) j hij
  omega

lemma noiseBefore_lt_noiseCount (labels : List (Option ℤ)) (i : ℕ)
    (hi : labels[i]? = some (some (-1))) :
    noiseBefore labels i < noiseCount labels := by
  have h1 := noiseBefore_succ_noise labels i hi
  have h2 : noiseBefore labels (i + 1) ≤ noiseCount labels := by
    rw [noiseBefore, noiseCount, noiseCount]
    exact List.Sublist.length_le
      (List.Sublist.filter _ (List.take_sublist (i + 1) labels))
  omega

lemma lt_length_of_getElem? {α : Type} (l : List α) (i : ℕ) (x : α)
    (h : l[i]? = some x) : i < l.length := by
  by_contra hlt
  rw [List.getElem?_eq_none (by omega)] at h
  exact Option.noConfusion h

lemma mem_filterMap_id_of_getElem? (labels : List (Option ℤ)) (j : ℕ)
    (lj : ℤ) (h : labels[j]? = some (some lj)) :
    lj ∈ labels.filterMap id := by
  rw [List.mem_filterMap]
  exact ⟨some lj, List.getElem?_mem h, rfl⟩

/-- C9: for every DBSCAN outcome with at least one clustered segment, the
speaker mapping assigns an id to every input index; clustered non-noise
segments keep their cluster label; every noise point gets an id distinct
from all real cluster labels and from every other noise point's id;
every excluded segment with a preceding included segment gets the id of
the nearest such segment; and every excluded segment with no included
predecessor gets an id distinct from every included segment's id. -/
theorem cluster_speaker_mapping_correct (labels : List (Option ℤ))
    (hvalid : ¬labels.all Option.isNone)
    (hlab : ∀ l ∈ labels.filterMap id, -1 ≤ l) :
    ∃ ids, cluster_speakers_embeddings labels = some ids ∧
      ids.length = labels.length ∧
      (∀ (i : ℕ) (l : ℤ), labels[i]? = some (some l) → l ≠ -1 →
        ids.getD i 0 = l) ∧
      (∀ i : ℕ, labels[i]? = some (some (-1)) →
        (∀ z ∈ labels.filterMap id, z ≠ -1 → ids.getD i 0 ≠ z) ∧
        (∀ j : ℕ, labels[j]? = some (some (-1)) → j ≠ i →
          ids.getD i 0 ≠ ids.getD j 0)) ∧
      (∀ i j : ℕ, labels[i]? = some none → j < i →
        (∃ lj, labels[j]? = some (some lj)) →
        (∀ k, j < k → k < i → labels[k]? = some none) →
        ids.getD i 0 = ids.getD j 0) ∧
      (∀ i : ℕ, labels[i]? = some none →
        (∀ j, j < i → labels[j]? = some none) →
        ∀ (j : ℕ) (lj : ℤ), labels[j]? = some (some lj) →
          ids.getD i 0 ≠ ids.getD j 0) := by
  set n0 := dbscanMaxLabel labels + 1 with hn0
  set p := assignValid labels n0 with hp
  set ids := (fillAll p.1 p.2).1.map (fun o => o.getD 0) with hids
  obtain ⟨flen, fval⟩ := fillAll_spec p.1 p.2
  have hplen : p.1.length = labels.length := by
    rw [hp]; exact assignValid_length labels n0
  have hC : p.2 = n0 + noiseCount labels := by
    rw [hp]; exact assignValid_counter labels n0
  have hid : ∀ i, i < labels.length →
      ids.getD i 0 = inheritVal p.1 p.2 i := by
    intro i hi
    have hv := fval i (by rw [hplen]; exact hi)
    rw [hids, List.getD_eq_getElem?_getD, List.getElem?_map, hv]
    rfl
  have hexcl : ∀ k : ℕ, labels[k]? = some none → p.1[k]? = some none := by
    intro k hk
    rw [hp]
    exact assignValid_excluded labels n0 k hk
  have hclusterval : ∀ (j : ℕ) (lj : ℤ), labels[j]? = some (some lj) →
      lj ≠ -1 → ids.getD j 0 = lj := by
    intro j lj hj hlj
    rw [hid j (lt_length_of_getElem? labels j _ hj)]
    exact inheritVal_assigned _ _ _ _
      (by rw [hp]; exact assignValid_cluster labels n0 j lj hj hlj)
  have hnoiseval : ∀ i : ℕ, labels[i]? = some (some (-1)) →
      ids.getD i 0 = n0 + noiseBefore labels i := by
    intro i hi
    rw [hid i (lt_length_of_getElem? labels i _ hi)]
    exact inheritVal_assigned _ _ _ _
      (by rw [hp]; exact assignValid_noise labels n0 i hi)
  refine ⟨ids, ?_, ?_, ?_, ?_, ?_, ?_⟩
  · unfold cluster_speakers_embeddings
    rw [if_neg hvalid]
  · rw [hids]
    simp only [List.length_map]
    rw [flen, hplen]
  · intro i l hi hl
    exact hclusterval i l hi hl
  · intro i hi
    have hvi := hnoiseval i hi
    constructor
    · intro z hz _
      have h1 : z ≤ dbscanMaxLabel labels := le_dbscanMaxLabel labels z hz
      have h2 : (0 : ℤ) ≤ (noiseBefore labels i : ℤ) := Int.natCast_nonneg _
      rw [hvi]
      omega
    · intro j hj hji
      have hvj := hnoiseval j hj
      rw [hvi, hvj]
      rcases lt_or_gt_of_ne hji with h | h
      · have := noiseBefore_strict labels j i h hj
        omega
      · have := noiseBefore_strict labels i j h hi
        omega
  · rintro i j hi hji ⟨lj, hlj⟩ hbetween
    have hlti := lt_length_of_getElem? labels i _ hi
    rw [hid i hlti, hid j (by omega)]
    apply inheritVal_chain p.1 p.2 j i (le_of_lt hji)
    intro k hk1 hk2
    rcases eq_or_lt_of_le hk2 with rfl | hk3
    · exact hexcl _ hi
    · exact hexcl _ (hbetween k hk1 hk3)
  · intro i hi hall j lj hj
    have hlti := lt_length_of_getElem? labels i _ hi
    have hltj := lt_length_of_getElem? labels j _ hj
    have hvi : ids.getD i 0 = p.2 := by
      rw [hid i hlti]
      have hchain := inheritVal_chain p.1 p.2 0 i (Nat.zero_le i) ?_
      · rw [hchain]
        have h0 : labels[0]? = some none := by
          rcases Nat.eq_zero_or_pos i with rfl | hpos
          · exact hi
          · exact hall 0 hpos
        exact inheritVal_unassigned_zero _ _ (hexcl 0 h0)
      · intro k hk1 hk2
        rcases eq_or_lt_of_le hk2 with rfl | hk3
        · exact hexcl _ hi
        · exact hexcl _ (hall k hk3)
    rw [hvi, hC]
    by_cases hlj : lj = -1
    · subst hlj
      rw [hnoiseval j hj]
      have := noiseBefore_lt_noiseCount labels j hj
      omega
    · rw [hclusterval j lj hj hlj]
      have h1 : lj ≤ dbscanMaxLabel labels :=
        le_dbscanMaxLabel labels lj (mem_filterMap_id_of_getElem? labels j lj hj)
      have h2 : (0 : ℤ) ≤ (noiseCount labels : ℤ) := Int.natCast_nonneg _
      omega

/-- C9 (witness): the mapping evaluated on a concrete DBSCAN outcome
(5 segments: excluded, noise, cluster 0, cluster 0, excluded): every index
is assigned, segment 2 keeps cluster id 0, the noise point's id differs
from cluster id 0, and the trailing excluded segment inherits the id of
the nearest preceding included segment (index 3). -/
theorem cluster_speaker_mapping_correct_witness :
    ∃ ids,
      cluster_speakers_embeddings
        [none, some (-1), some 0, some 0, none] = some ids ∧
      ids.length = 5 ∧ ids.getD 2 0 = 0 ∧ ids.getD 1 0 ≠ 0 ∧
      ids.getD 4 0 = ids.getD 3 0 := by
  obtain ⟨ids, h1, h2, h3, h4, h5, h6⟩ :=
    cluster_speaker_mapping_correct [none, some (-1), some 0, some 0, none]
      (by decide) (by decide)
  exact ⟨ids, h1, by simpa using h2, h3 2 0 (by decide) (by decide),
    (h4 1 (by decide)).1 0 (by decide) (by decide),
    h5 4 3 (by decide) (by omega) ⟨0, by decide⟩
      (fun k hk1 hk2 => absurd hk2 (by omega))⟩
